import Mathlib

/-!
# Verification of the FT-benchmark runner (`scripts/run-ft-benchmark.py`)

A shallow embedding of the benchmark-runner script and proofs about it.

The script is single-threaded Python.  Its observable state is:
a single lock-marker file at a fixed path, a set of temporary
workspace directories, and the sequence of external commands it spawns.
We model that state explicitly (`FS`), external command execution as an
oracle (`Env`), and each Python function as a Lean function threading the
state.  Python exceptions become `Except` values; an exception leaves the
state as it was at raise time, which the explicit state threading captures.

Modelling notes, tied to the Python semantics of the source:
* `re.match(r'^...$', s)` — Python's `$` (without `re.MULTILINE`) matches at
  the end of the string **or just before a newline at the end of the
  string**, so e.g. `"30m\n"` matches `^(\d+)([hms])$`.  The regex models
  below (`matchTimeRe`, `matchStateRe`) reproduce this.
* `\d` is modelled as ASCII `0`–`9` (`Char.isDigit`); Python's `\d` also
  accepts non-ASCII Unicode digits, which we do not model.
* `str.strip()` is modelled by `pyStrip` (ASCII whitespace only).
* error messages are modelled structurally (`ArgError`, `Err`) rather than
  as the exact f-string text: each carries the data the message interpolates.
-/

set_option autoImplicit false

namespace FtBenchmark

/-- Python `str.strip()` default whitespace set (ASCII part). -/
def isPySpace (c : Char) : Bool :=
  c = ' ' || c = '\t' || c = '\n' || c = '\r' || c = '\x0b' || c = '\x0c'

/-- Model of Python `s.strip()`: drop leading and trailing whitespace. -/
def pyStrip (s : String) : String :=
  String.mk (((s.data.dropWhile isPySpace).reverse.dropWhile isPySpace).reverse)

/-- Structured rendering of the `argparse.ArgumentTypeError` messages raised
by `parse_time` / `parse_state`; each constructor identifies the expected
grammar and carries the offending string the message quotes. -/
inductive ArgError where
  /-- `Invalid time format: '...'. Must be a number followed by h, m, or s.` -/
  | invalidTime (offending : String)
  /-- `Invalid state format: '...'. Must be a number optionally followed by K, M, or G.` -/
  | invalidState (offending : String)
  deriving DecidableEq, Repr

/-- Model of `re.match(r'^(\d+)([hms])$', s)`: on a match, the two capture
groups.  `\d+` is greedy; since none of `h`/`m`/`s` is a digit no
backtracking can occur, so the digit run is exactly `takeWhile isDigit`.
`$` accepts end-of-string or a single trailing newline. -/
def matchTimeRe (s : String) : Option (String × String) :=
  match s.data.takeWhile Char.isDigit, s.data.dropWhile Char.isDigit with
  | [], _ => none
  | _ :: _, [] => none
  | d :: ds, u :: rest =>
      if (u = 'h' ∨ u = 'm' ∨ u = 's') ∧ (rest = [] ∨ rest = ['\n']) then
        some (String.mk (d :: ds), String.mk [u])
      else
        none

/-- `parse_time` from the script: validate against `^(\d+)([hms])$` and
return `match.group(1) + match.group(2)`. -/
def parse_time (time_str : String) : Except ArgError String :=
  match matchTimeRe time_str with
  | none => Except.error (ArgError.invalidTime time_str)
  | some (g1, g2) => Except.ok (g1 ++ g2)

/-- Model of `re.match(r'^(\d+)([KMG]?)$', s)`: the optional magnitude group
may be empty.  Again `$` accepts end-of-string or one trailing newline. -/
def matchStateRe (s : String) : Option (String × String) :=
  match s.data.takeWhile Char.isDigit, s.data.dropWhile Char.isDigit with
  | [], _ => none
  | d :: ds, [] => some (String.mk (d :: ds), String.mk [])
  | d :: ds, [u] =>
      if u = '\n' then some (String.mk (d :: ds), String.mk [])
      else if u = 'K' ∨ u = 'M' ∨ u = 'G' then some (String.mk (d :: ds), String.mk [u])
      else none
  | d :: ds, [u, c] =>
      if (u = 'K' ∨ u = 'M' ∨ u = 'G') ∧ c = '\n' then
        some (String.mk (d :: ds), String.mk [u])
      else none
  | _ :: _, _ :: _ :: _ :: _ => none

/-- `parse_state` from the script: validate against `^(\d+)([KMG]?)$` and
return `match.group(1) + match.group(2)`. -/
def parse_state (state_str : String) : Except ArgError String :=
  match matchStateRe state_str with
  | none => Except.error (ArgError.invalidState state_str)
  | some (g1, g2) => Except.ok (g1 ++ g2)

/-- Spec-side grammar of duration strings: a nonempty run of digits followed
by exactly one unit character among `h`, `m`, `s`. -/
def goodDuration (s : String) : Prop :=
  ∃ ds u, ds ≠ [] ∧ (∀ c ∈ ds, Char.isDigit c = true) ∧
    (u = 'h' ∨ u = 'm' ∨ u = 's') ∧ s.data = ds ++ [u]

/-- Spec-side grammar of state-size strings: a nonempty run of digits
followed by an optional magnitude character among `K`, `M`, `G`. -/
def goodState (s : String) : Prop :=
  ∃ ds mag, ds ≠ [] ∧ (∀ c ∈ ds, Char.isDigit c = true) ∧
    (mag = [] ∨ mag = ['K'] ∨ mag = ['M'] ∨ mag = ['G']) ∧ s.data = ds ++ mag

/-- `REPO_URL` from the script. -/
def REPO_URL : String := "https://github.com/near/nearcore"

/-- Abstract filesystem paths the script manipulates.  `tempfile.mkdtemp()`
returns a fresh uniquely-named directory; we number them.  `repoDir id` is
`os.path.join(temp_dir, "nearcore")`, the clone target inside temp `id`. -/
inductive Path where
  | tempDir (id : Nat)
  | repoDir (id : Nat)
  deriving DecidableEq, Repr

/-- Rendering of an abstract path as the string interpolated into commands
(the concrete name `mkdtemp` chooses is arbitrary; we fix one per id). -/
def Path.str : Path → String
  | .tempDir id => "/tmp/ws" ++ toString id
  | .repoDir id => "/tmp/ws" ++ toString id ++ "/nearcore"

/-- The temp directory containing a path; `os.path.dirname(repo_dir)` is
`tempDir` of the same id. -/
def Path.tempId : Path → Nat
  | .tempDir id => id
  | .repoDir id => id

/-- Observable side effects of one run, in chronological order. -/
inductive Event where
  | lockCreated (user : String)
  | lockRemoved
  | tempCreated (id : Nat)
  | tempRemoved (id : Nat)
  | cmdRun (line : String) (cwd : Option Path)
  deriving DecidableEq, Repr

/-- Filesystem state: the lock marker (`none` = absent, `some h` = file
present with content `h`), the set of existing temp directories, the counter
feeding `mkdtemp`, and the event log. -/
structure FS where
  lock : Option String
  temps : List Nat
  nextTemp : Nat
  events : List Event
  deriving DecidableEq, Repr

/-- `os.path.exists` for the modelled paths: `repoDir id` exists while temp
`id` does (within a run it is created by the clone and removed only with the
whole temp directory). -/
def FS.pathExists (fs : FS) (p : Path) : Bool :=
  p.tempId ∈ fs.temps

/-- Structured rendering of the `RuntimeError`s the script raises:
`"{user} already running benchmark"` and
`"Command '{command}' failed with error: {stderr}"`. -/
inductive Err where
  | alreadyRunning (holder : String)
  | commandFailed (line : String) (stderr : String)
  deriving DecidableEq, Repr

/-- Oracle deciding the outcome of external commands: for a command line and
working directory, failure with captured stderr or success with captured
stdout. -/
structure Env where
  exec : String → Option Path → Except String String

/-- `run_command` from the script: spawn the command (logged as an event),
raise `RuntimeError` on non-zero exit, else return `stdout.strip()`. -/
def runCommand (env : Env) (line : String) (cwd : Option Path) (fs : FS) :
    Except Err String × FS :=
  let fs' : FS := { fs with events := fs.events ++ [Event.cmdRun line cwd] }
  match env.exec line cwd with
  | Except.ok out => (Except.ok (pyStrip out), fs')
  | Except.error msg => (Except.error (Err.commandFailed line msg), fs')

/-- `create_lock_file` from the script: if the marker exists, read it,
strip it, and raise `AlreadyRunning` (the marker is untouched); otherwise
write a marker containing `user`. -/
def create_lock_file (user : String) (fs : FS) : Except Err Unit × FS :=
  match fs.lock with
  | some content => (Except.error (Err.alreadyRunning (pyStrip content)), fs)
  | none =>
      (Except.ok (),
       { fs with lock := some user, events := fs.events ++ [Event.lockCreated user] })

/-- `remove_lock_file` from the script: remove the marker if it exists,
otherwise do nothing. -/
def remove_lock_file (fs : FS) : FS :=
  match fs.lock with
  | some _ => { fs with lock := none, events := fs.events ++ [Event.lockRemoved] }
  | none => fs

/-- The `git config` command line of `checkout_repo`. -/
def gitConfigLine : String := "git config --global http.postBuffer 524288000"

/-- The `git clone` command line of `checkout_repo`. -/
def gitCloneLine (repo : Path) : String :=
  "git clone " ++ REPO_URL ++ " " ++ repo.str

/-- Python truthiness of the `--commit` value: `None` (flag absent) and the
empty string are falsy, so `if not commit:` resolves the latest commit. -/
def isFalsy : Option String → Bool
  | none => true
  | some c => c = ""

/-- The `try:` body of `checkout_repo`: config, clone, fetch, optional
rev-parse of `origin/master` when no commit was given, checkout.  Returns
the resolved commit on success; any failing command aborts the sequence. -/
def checkoutSteps (env : Env) (commit : Option String) (repo : Path) (fs : FS) :
    Except Err String × FS :=
  match runCommand env gitConfigLine none fs with
  | (Except.error e, fs) => (Except.error e, fs)
  | (Except.ok _, fs) =>
  match runCommand env (gitCloneLine repo) none fs with
  | (Except.error e, fs) => (Except.error e, fs)
  | (Except.ok _, fs) =>
  match runCommand env "git fetch" (some repo) fs with
  | (Except.error e, fs) => (Except.error e, fs)
  | (Except.ok _, fs) =>
  match (if isFalsy commit then
           runCommand env "git rev-parse origin/master" (some repo) fs
         else
           (Except.ok ((commit).getD ""), fs)) with
  | (Except.error e, fs) => (Except.error e, fs)
  | (Except.ok c, fs) =>
  match runCommand env ("git checkout " ++ c) (some repo) fs with
  | (Except.error e, fs) => (Except.error e, fs)
  | (Except.ok _, fs) => (Except.ok c, fs)

/-- `checkout_repo` from the script: make a fresh temp directory, run the
try-body cloning into its `nearcore` subdirectory; on any failure remove the
whole temp directory (`shutil.rmtree(temp_dir)`) and re-raise; on success
return the repo path and the resolved commit. -/
def checkout_repo (env : Env) (commit : Option String) (fs : FS) :
    Except Err (Path × String) × FS :=
  let id := fs.nextTemp
  let fs1 : FS :=
    { fs with
        nextTemp := id + 1
        temps := id :: fs.temps
        events := fs.events ++ [Event.tempCreated id] }
  let repo := Path.repoDir id
  match checkoutSteps env commit repo fs1 with
  | (Except.error e, fs2) =>
      (Except.error e,
       { fs2 with
           temps := fs2.temps.erase id
           events := fs2.events ++ [Event.tempRemoved id] })
  | (Except.ok c, fs2) => (Except.ok (repo, c), fs2)

/-- The benchmark command line composed by `run_benchmark`: the driver
script followed by the seven configuration fields, space-separated, in the
source's fixed order. -/
def benchmarkLine (time : String) (users : Int) (state : String)
    (shards nodes rumpUp : Int) (user : String) : String :=
  "./scripts/start_benchmark.sh " ++ time ++ " " ++ toString users ++ " " ++
    state ++ " " ++ toString shards ++ " " ++ toString nodes ++ " " ++
    toString rumpUp ++ " " ++ user

/-- `run_benchmark` from the script: run the composed command with the
checked-out repository as working directory. -/
def run_benchmark (env : Env) (repoDir : Path) (time : String) (users : Int)
    (state : String) (shards nodes rumpUp : Int) (user : String) (fs : FS) :
    Except Err Unit × FS :=
  match runCommand env (benchmarkLine time users state shards nodes rumpUp user)
      (some repoDir) fs with
  | (Except.error e, fs) => (Except.error e, fs)
  | (Except.ok _, fs) => (Except.ok (), fs)

/-- The parsed command-line arguments of `main` (before the `type=` validators
run): `--time` and `--state` raw strings, the integer options, `--user`, and
the optional `--commit`. -/
structure Args where
  time : String
  users : Int
  state : String
  shards : Int
  nodes : Int
  rumpUp : Int
  user : String
  commit : Option String
  deriving DecidableEq, Repr

/-- How one invocation of `main` terminates: argparse rejects an argument
before any side effect; or the `try` body raises a `RuntimeError` which is
caught and printed; or the run completes, reporting the resolved commit. -/
inductive Outcome where
  | parseError (e : ArgError)
  | failed (e : Err)
  | completed (commit : String)
  deriving DecidableEq, Repr

/-- The `finally:` block of `main`: remove the lock file, then, if
`repo_dir` is bound (the checkout returned) and still exists on disk,
recursively remove `os.path.dirname(repo_dir)` — the parent temp
directory. -/
def finallyCleanup (repoOpt : Option Path) (fs : FS) : FS :=
  let fs1 := remove_lock_file fs
  match repoOpt with
  | some repo =>
      if fs1.pathExists repo then
        { fs1 with
            temps := fs1.temps.erase repo.tempId
            events := fs1.events ++ [Event.tempRemoved repo.tempId] }
      else fs1
  | none => fs1

/-- `main` from the script.  Argument validation happens inside
`parser.parse_args()`, before the `try`; the `try` body acquires the lock,
checks out the repo and runs the benchmark; `except RuntimeError` prints the
error; `finally` removes the lock file and then, if `repo_dir` was assigned
and still exists, removes its parent temp directory. -/
def mainRun (env : Env) (a : Args) (fs : FS) : Outcome × FS :=
  match parse_time a.time with
  | Except.error e => (Outcome.parseError e, fs)
  | Except.ok time =>
  match parse_state a.state with
  | Except.error e => (Outcome.parseError e, fs)
  | Except.ok state =>
  let body : Except Err String × Option Path × FS :=
    match create_lock_file a.user fs with
    | (Except.error e, fs) => (Except.error e, none, fs)
    | (Except.ok _, fs) =>
      match checkout_repo env a.commit fs with
      | (Except.error e, fs) => (Except.error e, none, fs)
      | (Except.ok (repo, commit), fs) =>
        match run_benchmark env repo time a.users state a.shards a.nodes
            a.rumpUp a.user fs with
        | (Except.error e, fs) => (Except.error e, some repo, fs)
        | (Except.ok _, fs) => (Except.ok commit, some repo, fs)
  let fs2 := finallyCleanup body.2.1 body.2.2
  match body.1 with
  | Except.ok c => (Outcome.completed c, fs2)
  | Except.error e => (Outcome.failed e, fs2)

/-- Splitting a command line into words at spaces, dropping empty words:
the arguments an argument vector would receive for a command line whose
words contain no quoting or other shell metacharacters. -/
def wordsAux (cur : List Char) : List Char → List (List Char)
  | [] => if cur = [] then [] else [cur.reverse]
  | c :: rest =>
      if c = ' ' then
        if cur = [] then wordsAux [] rest
        else cur.reverse :: wordsAux [] rest
      else wordsAux (c :: cur) rest

/-- The word list of a command-line string. -/
def shellWords (s : String) : List String :=
  (wordsAux [] s.data).map String.mk

/-- An environment in which every external command succeeds, with stdout
`deadbeef` (so a resolved `git rev-parse` yields commit `deadbeef`). -/
def env0 : Env := ⟨fun _ _ => Except.ok "deadbeef"⟩

/-- An environment in which every external command fails with stderr
`boom`. -/
def envFail : Env := ⟨fun _ _ => Except.error "boom"⟩

/-- The empty initial state: no lock marker, no temp directories. -/
def fs0 : FS := ⟨none, [], 0, []⟩

/-- The run configuration of the spec's worked example:
`--time 2h --users 50 --state 2G --shards 4 --nodes 2 --rump-up 10
--user alice --commit abc123`. -/
def exampleArgs : Args :=
  ⟨"2h", 50, "2G", 4, 2, 10, "alice", some "abc123"⟩

lemma string_mk_data (s : String) : String.mk s.data = s := rfl

lemma string_mk_append (a b : List Char) :
    String.mk a ++ String.mk b = String.mk (a ++ b) := rfl

lemma takeWhile_all {p : Char → Bool} :
    ∀ ds : List Char, (∀ c ∈ ds, p c = true) →
      ds.takeWhile p = ds ∧ ds.dropWhile p = []
  | [], _ => ⟨rfl, rfl⟩
  | d :: ds, h => by
      have hd : p d = true := h d (List.mem_cons_self d ds)
      have ih := takeWhile_all ds fun c hc => h c (List.mem_cons_of_mem d hc)
      simp [List.takeWhile, List.dropWhile, hd, ih.1, ih.2]

lemma takeWhile_split {p : Char → Bool} (u : Char) (rest : List Char)
    (hu : p u = false) :
    ∀ ds : List Char, (∀ c ∈ ds, p c = true) →
      (ds ++ u :: rest).takeWhile p = ds ∧ (ds ++ u :: rest).dropWhile p = u :: rest
  | [], _ => by simp [List.takeWhile, List.dropWhile, hu]
  | d :: ds, h => by
      have hd : p d = true := h d (List.mem_cons_self d ds)
      have ih := takeWhile_split u rest hu ds
        fun c hc => h c (List.mem_cons_of_mem d hc)
      simp [List.takeWhile, List.dropWhile, hd, ih.1, ih.2]

lemma string_eq_of_data {a b : String} (h : a.data = b.data) : a = b := by
  cases a; cases b; exact congrArg String.mk h

lemma unit_not_digit {u : Char} (hu : u = 'h' ∨ u = 'm' ∨ u = 's') :
    Char.isDigit u = false := by
  rcases hu with h | h | h <;> subst h <;> decide

lemma mag_not_digit {u : Char} (hu : u = 'K' ∨ u = 'M' ∨ u = 'G') :
    Char.isDigit u = false := by
  rcases hu with h | h | h <;> subst h <;> decide

lemma matchTimeRe_of_good {s : String} {ds : List Char} {u : Char} {rest : List Char}
    (hne : ds ≠ []) (hdig : ∀ c ∈ ds, Char.isDigit c = true)
    (hu : u = 'h' ∨ u = 'm' ∨ u = 's') (hrest : rest = [] ∨ rest = ['\n'])
    (hdata : s.data = ds ++ u :: rest) :
    matchTimeRe s = some (String.mk ds, String.mk [u]) := by
  have hsplit := takeWhile_split u rest (unit_not_digit hu) ds hdig
  have h1 : s.data.takeWhile Char.isDigit = ds := by rw [hdata]; exact hsplit.1
  have h2 : s.data.dropWhile Char.isDigit = u :: rest := by rw [hdata]; exact hsplit.2
  unfold matchTimeRe
  rw [h1, h2]
  cases ds with
  | nil => exact absurd rfl hne
  | cons d tl => exact if_pos ⟨hu, hrest⟩

lemma matchTimeRe_some {s g1 g2} (h : matchTimeRe s = some (g1, g2)) :
    ∃ ds u rest, g1 = String.mk ds ∧ g2 = String.mk [u] ∧ ds ≠ [] ∧
      (∀ c ∈ ds, Char.isDigit c = true) ∧ (u = 'h' ∨ u = 'm' ∨ u = 's') ∧
      (rest = [] ∨ rest = ['\n']) ∧ s.data = ds ++ u :: rest := by
  have happ := List.takeWhile_append_dropWhile Char.isDigit s.data
  unfold matchTimeRe at h
  split at h
  · exact absurd h (by simp)
  · exact absurd h (by simp)
  · rename_i d tl u rest heq1 heq2
    split at h
    · rename_i hcond
      refine ⟨d :: tl, u, rest, ?_, ?_, by simp, ?_, hcond.1, hcond.2, ?_⟩
      · exact (Prod.mk.injEq _ _ _ _ ▸ Option.some.inj h).1.symm
      · exact (Prod.mk.injEq _ _ _ _ ▸ Option.some.inj h).2.symm
      · intro c hc
        exact List.mem_takeWhile_imp (heq1 ▸ hc)
      · rw [← happ, heq1, heq2]
    · exact absurd h (by simp)

lemma matchStateRe_of_good_empty {s : String} {d : Char} {tl rest : List Char}
    (hdig : ∀ c ∈ d :: tl, Char.isDigit c = true)
    (hrest : rest = [] ∨ rest = ['\n'])
    (hdata : s.data = (d :: tl) ++ rest) :
    matchStateRe s = some (String.mk (d :: tl), String.mk []) := by
  rcases hrest with hr | hr <;> subst hr
  · have hsplit := takeWhile_all (d :: tl) hdig
    have h1 : s.data.takeWhile Char.isDigit = d :: tl := by
      rw [hdata]; simpa using hsplit.1
    have h2 : s.data.dropWhile Char.isDigit = [] := by
      rw [hdata]; simpa using hsplit.2
    unfold matchStateRe
    rw [h1, h2]
  · have hsplit := takeWhile_split '\n' [] (by decide) (d :: tl) hdig
    have h1 : s.data.takeWhile Char.isDigit = d :: tl := by rw [hdata]; exact hsplit.1
    have h2 : s.data.dropWhile Char.isDigit = ['\n'] := by rw [hdata]; exact hsplit.2
    unfold matchStateRe
    rw [h1, h2]
    exact if_pos rfl

lemma matchStateRe_of_good_mag {s : String} {d : Char} {tl rest : List Char} {u : Char}
    (hdig : ∀ c ∈ d :: tl, Char.isDigit c = true)
    (hu : u = 'K' ∨ u = 'M' ∨ u = 'G') (hrest : rest = [] ∨ rest = ['\n'])
    (hdata : s.data = (d :: tl) ++ u :: rest) :
    matchStateRe s = some (String.mk (d :: tl), String.mk [u]) := by
  have hun : ¬ u = '\n' := by rcases hu with h | h | h <;> subst h <;> decide
  have hsplit := takeWhile_split u rest (mag_not_digit hu) (d :: tl) hdig
  have h1 : s.data.takeWhile Char.isDigit = d :: tl := by rw [hdata]; exact hsplit.1
  have h2 : s.data.dropWhile Char.isDigit = u :: rest := by rw [hdata]; exact hsplit.2
  unfold matchStateRe
  rcases hrest with hr | hr <;> subst hr <;> rw [h1, h2]
  · exact (if_neg hun).trans (if_pos hu)
  · exact if_pos ⟨hu, rfl⟩

lemma matchStateRe_of_good {s : String} {ds mag rest : List Char}
    (hne : ds ≠ []) (hdig : ∀ c ∈ ds, Char.isDigit c = true)
    (hmag : mag = [] ∨ mag = ['K'] ∨ mag = ['M'] ∨ mag = ['G'])
    (hrest : rest = [] ∨ rest = ['\n'])
    (hdata : s.data = ds ++ mag ++ rest) :
    matchStateRe s = some (String.mk ds, String.mk mag) := by
  obtain ⟨d, tl, rfl⟩ : ∃ d tl, ds = d :: tl := by
    cases ds with
    | nil => exact absurd rfl hne
    | cons d tl => exact ⟨d, tl, rfl⟩
  rcases hmag with hm | hm | hm | hm
  · subst hm
    exact matchStateRe_of_good_empty hdig hrest (by simpa using hdata)
  · subst hm
    exact matchStateRe_of_good_mag hdig (Or.inl rfl) hrest (by simpa using hdata)
  · subst hm
    exact matchStateRe_of_good_mag hdig (Or.inr (Or.inl rfl)) hrest (by simpa using hdata)
  · subst hm
    exact matchStateRe_of_good_mag hdig (Or.inr (Or.inr rfl)) hrest (by simpa using hdata)

lemma matchStateRe_some {s g1 g2} (h : matchStateRe s = some (g1, g2)) :
    ∃ ds mag rest, g1 = String.mk ds ∧ g2 = String.mk mag ∧ ds ≠ [] ∧
      (∀ c ∈ ds, Char.isDigit c = true) ∧
      (mag = [] ∨ mag = ['K'] ∨ mag = ['M'] ∨ mag = ['G']) ∧
      (rest = [] ∨ rest = ['\n']) ∧ s.data = ds ++ mag ++ rest := by
  have happ := List.takeWhile_append_dropWhile Char.isDigit s.data
  unfold matchStateRe at h
  split at h
  · exact absurd h (by simp)
  · rename_i d tl heq1 heq2
    refine ⟨d :: tl, [], [], ?_, ?_, by simp, ?_, Or.inl rfl, Or.inl rfl, ?_⟩
    · exact (Prod.mk.injEq _ _ _ _ ▸ Option.some.inj h).1.symm
    · exact (Prod.mk.injEq _ _ _ _ ▸ Option.some.inj h).2.symm
    · intro c hc; exact List.mem_takeWhile_imp (heq1 ▸ hc)
    · rw [← happ, heq1, heq2]; simp
  · rename_i d tl u heq1 heq2
    by_cases hu : u = '\n'
    · rw [if_pos hu] at h
      subst hu
      refine ⟨d :: tl, [], ['\n'], ?_, ?_, by simp, ?_, Or.inl rfl, Or.inr rfl, ?_⟩
      · exact (Prod.mk.injEq _ _ _ _ ▸ Option.some.inj h).1.symm
      · exact (Prod.mk.injEq _ _ _ _ ▸ Option.some.inj h).2.symm
      · intro c hc; exact List.mem_takeWhile_imp (heq1 ▸ hc)
      · rw [← happ, heq1, heq2]; simp
    · rw [if_neg hu] at h
      split at h
      · rename_i hkmg
        refine ⟨d :: tl, [u], [], ?_, ?_, by simp, ?_, ?_, Or.inl rfl, ?_⟩
        · exact (Prod.mk.injEq _ _ _ _ ▸ Option.some.inj h).1.symm
        · exact (Prod.mk.injEq _ _ _ _ ▸ Option.some.inj h).2.symm
        · intro c hc; exact List.mem_takeWhile_imp (heq1 ▸ hc)
        · rcases hkmg with hk | hk | hk <;> subst hk <;> simp
        · rw [← happ, heq1, heq2]; simp
      · exact absurd h (by simp)
  · rename_i d tl u c heq1 heq2
    split at h
    · rename_i hcond
      obtain ⟨hkmg, hc⟩ := hcond
      subst hc
      refine ⟨d :: tl, [u], ['\n'], ?_, ?_, by simp, ?_, ?_, Or.inr rfl, ?_⟩
      · exact (Prod.mk.injEq _ _ _ _ ▸ Option.some.inj h).1.symm
      · exact (Prod.mk.injEq _ _ _ _ ▸ Option.some.inj h).2.symm
      · intro e he; exact List.mem_takeWhile_imp (heq1 ▸ he)
      · rcases hkmg with hk | hk | hk <;> subst hk <;> simp
      · rw [← happ, heq1, heq2]; simp
    · exact absurd h (by simp)
  · exact absurd h (by simp)

lemma parse_time_eq_ok {s g1 g2} (h : matchTimeRe s = some (g1, g2)) :
    parse_time s = Except.ok (g1 ++ g2) := by
  unfold parse_time; rw [h]

lemma parse_time_eq_err {s} (h : matchTimeRe s = none) :
    parse_time s = Except.error (ArgError.invalidTime s) := by
  unfold parse_time; rw [h]

lemma parse_state_eq_ok {s g1 g2} (h : matchStateRe s = some (g1, g2)) :
    parse_state s = Except.ok (g1 ++ g2) := by
  unfold parse_state; rw [h]

lemma parse_state_eq_err {s} (h : matchStateRe s = none) :
    parse_state s = Except.error (ArgError.invalidState s) := by
  unfold parse_state; rw [h]

example : parse_time "30m" = Except.ok "30m" := rfl
example : parse_time "30m\n" = Except.ok "30m" := rfl
example : parse_time "0h" = Except.ok "0h" := rfl
example : parse_time "45" = Except.error (ArgError.invalidTime "45") := rfl
example : parse_time "2d" = Except.error (ArgError.invalidTime "2d") := rfl
example : parse_state "500" = Except.ok "500" := rfl
example : parse_state "500\n" = Except.ok "500" := rfl
example : parse_state "2G" = Except.ok "2G" := rfl
example : parse_state "500X" = Except.error (ArgError.invalidState "500X") := rfl
example : pyStrip " alice\n" = "alice" := by decide

/-- **C5 counterexample**: the claim says the duration validator succeeds
*exactly* on strings of the form `<digits><unit>` and returns the input
unchanged.  The code accepts `"30m\n"` (Python `$` matches before a trailing
newline) and returns `"30m"`, which differs from the input. -/
theorem parse_time_trailing_newline_cex :
    parse_time "30m\n" = Except.ok "30m" ∧ ("30m\n" : String) ≠ "30m" :=
  ⟨rfl, by decide⟩

/-- **C5** (amended): the duration validator succeeds exactly when the input,
possibly after removing one trailing newline, matches
`<nonempty digits><unit>` with unit in `{h,m,s}`; on success it returns the
matched portion (the input itself when there is no trailing newline), and on
every other string it fails with the invalid-time-format error quoting the
offending string. -/
theorem parse_time_amended_spec (s : String) :
    (goodDuration s → parse_time s = Except.ok s) ∧
    (∀ t, goodDuration t → s = t ++ "\n" → parse_time s = Except.ok t) ∧
    (¬ goodDuration s → (∀ t, goodDuration t → s ≠ t ++ "\n") →
      parse_time s = Except.error (ArgError.invalidTime s)) := by
  refine ⟨?_, ?_, ?_⟩
  · rintro ⟨ds, u, hne, hdig, hu, hdata⟩
    have hm := matchTimeRe_of_good hne hdig hu (Or.inl rfl) hdata
    rw [parse_time_eq_ok hm, string_mk_append, ← hdata, string_mk_data]
  · rintro t ⟨ds, u, hne, hdig, hu, hdata⟩ hs
    have hsdata : s.data = ds ++ u :: ['\n'] := by
      rw [hs, String.data_append, hdata]
      simp
    have hm := matchTimeRe_of_good hne hdig hu (Or.inr rfl) hsdata
    rw [parse_time_eq_ok hm, string_mk_append, ← hdata, string_mk_data]
  · intro h1 h2
    cases hm : matchTimeRe s with
    | none => exact parse_time_eq_err hm
    | some g =>
        obtain ⟨g1, g2⟩ := g
        obtain ⟨ds, u, rest, hg1, hg2, hne, hdig, hu, hrest, hdata⟩ := matchTimeRe_some hm
        rcases hrest with hr | hr <;> subst hr
        · exact absurd ⟨ds, u, hne, hdig, hu, hdata⟩ h1
        · refine absurd ?_ (h2 (String.mk (ds ++ [u])) ⟨ds, u, hne, hdig, hu, rfl⟩)
          apply string_eq_of_data
          rw [String.data_append, hdata]
          simp

/-- Witness for `parse_time_amended_spec`, evaluating all three branches at
concrete inputs. -/
theorem parse_time_amended_spec_witness :
    parse_time "30m" = Except.ok "30m" ∧
    parse_time "30m\n" = Except.ok "30m" ∧
    parse_time "2d" = Except.error (ArgError.invalidTime "2d") := by
  refine ⟨?_, ?_, ?_⟩
  · exact (parse_time_amended_spec "30m").1
      ⟨['3', '0'], 'm', by decide, by decide, by decide, by decide⟩
  · exact (parse_time_amended_spec "30m\n").2.1 "30m"
      ⟨['3', '0'], 'm', by decide, by decide, by decide, by decide⟩ rfl
  · refine (parse_time_amended_spec "2d").2.2 ?_ ?_
    · rintro ⟨ds, u, hne, hdig, hu, hdata⟩
      have hlist : ds ++ [u] = ['2', 'd'] := hdata.symm.trans rfl
      cases ds with
      | nil => simp at hlist
      | cons a tl =>
          cases tl with
          | nil =>
              obtain ⟨ha, hu2⟩ : a = '2' ∧ u = 'd' := by simpa using hlist
              subst hu2
              rcases hu with h | h | h <;> exact absurd h (by decide)
          | cons b tl2 =>
              have hlen := congrArg List.length hlist
              simp at hlen
    · intro t ht heq
      have hd : ("2d" : String).data = t.data ++ ['\n'] := by
        rw [heq, String.data_append]
      have hl := congrArg List.getLast? hd
      rw [List.getLast?_concat] at hl
      exact absurd hl (by decide)

/-- **C6 counterexample**: the claim says the state-size validator succeeds
*exactly* on strings of the form `<digits>[KMG]?` and returns the input
unchanged.  The code accepts `"500\n"` (Python `$` matches before a trailing
newline) and returns `"500"`, which differs from the input. -/
theorem parse_state_trailing_newline_cex :
    parse_state "500\n" = Except.ok "500" ∧ ("500\n" : String) ≠ "500" :=
  ⟨rfl, by decide⟩

/-- **C6** (amended): the state-size validator succeeds exactly when the
input, possibly after removing one trailing newline, matches
`<nonempty digits><optional magnitude>` with magnitude in `{K,M,G}`; on
success it returns the matched portion (the input itself when there is no
trailing newline), and on every other string — `"500X"` among them — it
fails with the invalid-state-format error quoting the offending string. -/
theorem parse_state_amended_spec (s : String) :
    (goodState s → parse_state s = Except.ok s) ∧
    (∀ t, goodState t → s = t ++ "\n" → parse_state s = Except.ok t) ∧
    (¬ goodState s → (∀ t, goodState t → s ≠ t ++ "\n") →
      parse_state s = Except.error (ArgError.invalidState s)) := by
  refine ⟨?_, ?_, ?_⟩
  · rintro ⟨ds, mag, hne, hdig, hmag, hdata⟩
    have hm := matchStateRe_of_good hne hdig hmag (Or.inl rfl)
      (by rw [hdata]; simp)
    rw [parse_state_eq_ok hm, string_mk_append, ← hdata, string_mk_data]
  · rintro t ⟨ds, mag, hne, hdig, hmag, hdata⟩ hs
    have hsdata : s.data = ds ++ mag ++ ['\n'] := by
      rw [hs, String.data_append, hdata]
    have hm := matchStateRe_of_good hne hdig hmag (Or.inr rfl) hsdata
    rw [parse_state_eq_ok hm, string_mk_append, ← hdata, string_mk_data]
  · intro h1 h2
    cases hm : matchStateRe s with
    | none => exact parse_state_eq_err hm
    | some g =>
        obtain ⟨g1, g2⟩ := g
        obtain ⟨ds, mag, rest, hg1, hg2, hne, hdig, hmag, hrest, hdata⟩ :=
          matchStateRe_some hm
        rcases hrest with hr | hr <;> subst hr
        · refine absurd ⟨ds, mag, hne, hdig, hmag, ?_⟩ h1
          rw [hdata]; simp
        · refine absurd ?_ (h2 (String.mk (ds ++ mag)) ⟨ds, mag, hne, hdig, hmag, rfl⟩)
          apply string_eq_of_data
          rw [String.data_append, hdata]

/-- Witness for `parse_state_amended_spec`, evaluating all three branches at
concrete inputs. -/
theorem parse_state_amended_spec_witness :
    parse_state "2G" = Except.ok "2G" ∧
    parse_state "500\n" = Except.ok "500" ∧
    parse_state "500X" = Except.error (ArgError.invalidState "500X") := by
  refine ⟨?_, ?_, ?_⟩
  · exact (parse_state_amended_spec "2G").1
      ⟨['2'], ['G'], by decide, by decide, by decide, by decide⟩
  · exact (parse_state_amended_spec "500\n").2.1 "500"
      ⟨['5', '0', '0'], [], by decide, by decide, by decide, by decide⟩ rfl
  · refine (parse_state_amended_spec "500X").2.2 ?_ ?_
    · rintro ⟨ds, mag, hne, hdig, hmag, hdata⟩
      have hlist : ds ++ mag = ['5', '0', '0', 'X'] := hdata.symm.trans rfl
      rcases hmag with hm | hm | hm | hm <;> subst hm
      · simp only [List.append_nil] at hlist
        subst hlist
        exact absurd (hdig 'X' (by decide)) (by decide)
      · have hl := congrArg List.getLast? hlist
        rw [List.getLast?_concat] at hl
        exact absurd hl (by decide)
      · have hl := congrArg List.getLast? hlist
        rw [List.getLast?_concat] at hl
        exact absurd hl (by decide)
      · have hl := congrArg List.getLast? hlist
        rw [List.getLast?_concat] at hl
        exact absurd hl (by decide)
    · intro t ht heq
      have hd : ("500X" : String).data = t.data ++ ['\n'] := by
        rw [heq, String.data_append]
      have hl := congrArg List.getLast? hd
      rw [List.getLast?_concat] at hl
      exact absurd hl (by decide)

/-- **C9 counterexample**: the claim says the validators reject `"0h"` and
`"0"` because numeric parts must be strictly positive; the code's regexes
use `\d+`, which accepts zero, so both inputs are accepted. -/
theorem zero_numeric_cex :
    parse_time "0h" = Except.ok "0h" ∧ parse_state "0" = Except.ok "0" :=
  ⟨rfl, rfl⟩

/-- **C9** (amended): the numeric part of every accepted duration and
state-size string is a *non-negative* integer — zero is allowed; in
particular `"0h"` and `"0"` are accepted unchanged. -/
theorem zero_numeric_amended :
    parse_time "0h" = Except.ok "0h" ∧ parse_state "0" = Except.ok "0" ∧
    (∀ s r, parse_time s = Except.ok r →
      ∃ ds u, ds ≠ [] ∧ (∀ c ∈ ds, Char.isDigit c = true) ∧ r.data = ds ++ [u]) ∧
    (∀ s r, parse_state s = Except.ok r →
      ∃ ds mag, ds ≠ [] ∧ (∀ c ∈ ds, Char.isDigit c = true) ∧ r.data = ds ++ mag) := by
  refine ⟨rfl, rfl, ?_, ?_⟩
  · intro s r hr
    cases hm : matchTimeRe s with
    | none => rw [parse_time_eq_err hm] at hr; exact absurd hr (by simp)
    | some g =>
        obtain ⟨g1, g2⟩ := g
        rw [parse_time_eq_ok hm] at hr
        obtain ⟨ds, u, rest, hg1, hg2, hne, hdig, _, _, _⟩ := matchTimeRe_some hm
        refine ⟨ds, u, hne, hdig, ?_⟩
        have : r = g1 ++ g2 := by simpa using hr.symm
        rw [this, hg1, hg2, string_mk_append]
  · intro s r hr
    cases hm : matchStateRe s with
    | none => rw [parse_state_eq_err hm] at hr; exact absurd hr (by simp)
    | some g =>
        obtain ⟨g1, g2⟩ := g
        rw [parse_state_eq_ok hm] at hr
        obtain ⟨ds, mag, rest, hg1, hg2, hne, hdig, _, _, _⟩ := matchStateRe_some hm
        refine ⟨ds, mag, hne, hdig, ?_⟩
        have : r = g1 ++ g2 := by simpa using hr.symm
        rw [this, hg1, hg2, string_mk_append]

/-- Witness for `zero_numeric_amended`: its universally quantified parts
applied at the accepted inputs `"0h"` and `"0"`. -/
theorem zero_numeric_amended_witness :
    (∃ ds u, ds ≠ [] ∧ (∀ c ∈ ds, Char.isDigit c = true) ∧
      ("0h" : String).data = ds ++ [u]) ∧
    (∃ ds mag, ds ≠ [] ∧ (∀ c ∈ ds, Char.isDigit c = true) ∧
      ("0" : String).data = ds ++ mag) :=
  ⟨zero_numeric_amended.2.2.1 "0h" "0h" rfl,
   zero_numeric_amended.2.2.2 "0" "0" rfl⟩

lemma create_lock_file_none {u : String} {fs : FS} (h : fs.lock = none) :
    create_lock_file u fs =
      (Except.ok (),
       { fs with lock := some u, events := fs.events ++ [Event.lockCreated u] }) := by
  unfold create_lock_file; rw [h]

lemma create_lock_file_some {u : String} {fs : FS} {h : String}
    (hl : fs.lock = some h) :
    create_lock_file u fs = (Except.error (Err.alreadyRunning (pyStrip h)), fs) := by
  unfold create_lock_file; rw [hl]

lemma remove_lock_file_none {fs : FS} (h : fs.lock = none) :
    remove_lock_file fs = fs := by
  unfold remove_lock_file; rw [h]

lemma remove_lock_file_some {fs : FS} {h : String} (hl : fs.lock = some h) :
    remove_lock_file fs =
      { fs with lock := none, events := fs.events ++ [Event.lockRemoved] } := by
  unfold remove_lock_file; rw [hl]

lemma runCommand_eq (env : Env) (l : String) (w : Option Path) (fs : FS) :
    runCommand env l w fs =
      ((match env.exec l w with
        | Except.ok out => Except.ok (pyStrip out)
        | Except.error msg => Except.error (Err.commandFailed l msg)),
       { fs with events := fs.events ++ [Event.cmdRun l w] }) := by
  unfold runCommand
  cases env.exec l w <;> rfl

lemma checkoutSteps_state (env : Env) (copt : Option String) (repo : Path) (fs : FS) :
    (checkoutSteps env copt repo fs).2.lock = fs.lock ∧
    (checkoutSteps env copt repo fs).2.temps = fs.temps ∧
    (checkoutSteps env copt repo fs).2.nextTemp = fs.nextTemp ∧
    ∃ mid, (checkoutSteps env copt repo fs).2.events = fs.events ++ mid := by
  cases h1 : env.exec gitConfigLine none with
  | error m => simp [checkoutSteps, runCommand_eq, h1]
  | ok r1 =>
  cases h2 : env.exec (gitCloneLine repo) none with
  | error m => simp [checkoutSteps, runCommand_eq, h1, h2]
  | ok r2 =>
  cases h3 : env.exec "git fetch" (some repo) with
  | error m => simp [checkoutSteps, runCommand_eq, h1, h2, h3]
  | ok r3 =>
  cases hf : isFalsy copt with
  | true =>
      cases h4 : env.exec "git rev-parse origin/master" (some repo) with
      | error m => simp [checkoutSteps, runCommand_eq, h1, h2, h3, h4, hf]
      | ok r4 =>
      cases h5 : env.exec ("git checkout " ++ pyStrip r4) (some repo) with
      | error m => simp [checkoutSteps, runCommand_eq, h1, h2, h3, h4, h5, hf]
      | ok r5 => simp [checkoutSteps, runCommand_eq, h1, h2, h3, h4, h5, hf]
  | false =>
      cases h5 : env.exec ("git checkout " ++ copt.getD "") (some repo) with
      | error m => simp [checkoutSteps, runCommand_eq, h1, h2, h3, h5, hf]
      | ok r5 => simp [checkoutSteps, runCommand_eq, h1, h2, h3, h5, hf]

lemma checkoutSteps_ok {env : Env} {copt : Option String} {repo : Path} {fs : FS}
    {commit : String} {fs' : FS}
    (h : checkoutSteps env copt repo fs = (Except.ok commit, fs')) :
    ((isFalsy copt = false ∧ copt = some commit) ∨
     (isFalsy copt = true ∧
       ∃ raw, env.exec "git rev-parse origin/master" (some repo) = Except.ok raw ∧
         commit = pyStrip raw)) ∧
    fs' = { fs with events := fs.events ++
        ([Event.cmdRun gitConfigLine none, Event.cmdRun (gitCloneLine repo) none,
          Event.cmdRun "git fetch" (some repo)] ++
         (if isFalsy copt then
            [Event.cmdRun "git rev-parse origin/master" (some repo)] else []) ++
         [Event.cmdRun ("git checkout " ++ commit) (some repo)]) } := by
  cases h1 : env.exec gitConfigLine none with
  | error m => simp [checkoutSteps, runCommand_eq, h1] at h
  | ok r1 =>
  cases h2 : env.exec (gitCloneLine repo) none with
  | error m => simp [checkoutSteps, runCommand_eq, h1, h2] at h
  | ok r2 =>
  cases h3 : env.exec "git fetch" (some repo) with
  | error m => simp [checkoutSteps, runCommand_eq, h1, h2, h3] at h
  | ok r3 =>
  cases hf : isFalsy copt with
  | true =>
      cases h4 : env.exec "git rev-parse origin/master" (some repo) with
      | error m => simp [checkoutSteps, runCommand_eq, h1, h2, h3, h4, hf] at h
      | ok r4 =>
      cases h5 : env.exec ("git checkout " ++ pyStrip r4) (some repo) with
      | error m => simp [checkoutSteps, runCommand_eq, h1, h2, h3, h4, h5, hf] at h
      | ok r5 =>
          simp [checkoutSteps, runCommand_eq, h1, h2, h3, h4, h5, hf] at h
          obtain ⟨hc, hfs⟩ := h
          subst hc
          refine ⟨Or.inr ⟨rfl, r4, rfl, rfl⟩, ?_⟩
          rw [← hfs]
          simp
  | false =>
      cases h5 : env.exec ("git checkout " ++ copt.getD "") (some repo) with
      | error m => simp [checkoutSteps, runCommand_eq, h1, h2, h3, h5, hf] at h
      | ok r5 =>
          simp [checkoutSteps, runCommand_eq, h1, h2, h3, h5, hf] at h
          obtain ⟨hc, hfs⟩ := h
          obtain ⟨cc, rfl⟩ : ∃ cc, copt = some cc := by
            cases copt with
            | none => simp [isFalsy] at hf
            | some cc => exact ⟨cc, rfl⟩
          subst hc
          refine ⟨Or.inl ⟨rfl, rfl⟩, ?_⟩
          rw [← hfs]
          simp

lemma checkout_repo_err_inv {env : Env} {copt : Option String} {fs : FS}
    {e : Err} {fs' : FS}
    (h : checkout_repo env copt fs = (Except.error e, fs')) :
    fs'.lock = fs.lock ∧ fs'.temps = fs.temps ∧ fs'.nextTemp = fs.nextTemp + 1 ∧
    ∃ mid, fs'.events =
      fs.events ++ [Event.tempCreated fs.nextTemp] ++ mid ++
        [Event.tempRemoved fs.nextTemp] := by
  simp only [checkout_repo] at h
  split at h
  · rename_i e2 fs2 heq
    have hst := checkoutSteps_state env copt (Path.repoDir fs.nextTemp)
      { fs with
          nextTemp := fs.nextTemp + 1
          temps := fs.nextTemp :: fs.temps
          events := fs.events ++ [Event.tempCreated fs.nextTemp] }
    rw [heq] at hst
    dsimp only at hst
    obtain ⟨hlock, htemps, hnext, mid, hevents⟩ := hst
    obtain ⟨h1, h2⟩ := Prod.mk.injEq _ _ _ _ ▸ h
    subst h2
    dsimp only
    refine ⟨hlock, ?_, hnext, mid, ?_⟩
    · rw [htemps]
      exact List.erase_cons_head fs.nextTemp fs.temps
    · rw [hevents]
  · exact absurd h (by simp)

lemma checkout_repo_ok_inv {env : Env} {copt : Option String} {fs : FS}
    {p : Path} {commit : String} {fs' : FS}
    (h : checkout_repo env copt fs = (Except.ok (p, commit), fs')) :
    p = Path.repoDir fs.nextTemp ∧
    fs'.lock = fs.lock ∧
    fs'.temps = fs.nextTemp :: fs.temps ∧
    fs'.nextTemp = fs.nextTemp + 1 ∧
    ((isFalsy copt = false ∧ copt = some commit) ∨
     (isFalsy copt = true ∧
       ∃ raw, env.exec "git rev-parse origin/master" (some (Path.repoDir fs.nextTemp)) =
         Except.ok raw ∧ commit = pyStrip raw)) ∧
    fs'.events = fs.events ++
      ([Event.tempCreated fs.nextTemp,
        Event.cmdRun gitConfigLine none,
        Event.cmdRun (gitCloneLine (Path.repoDir fs.nextTemp)) none,
        Event.cmdRun "git fetch" (some (Path.repoDir fs.nextTemp))] ++
       (if isFalsy copt then
          [Event.cmdRun "git rev-parse origin/master" (some (Path.repoDir fs.nextTemp))]
        else []) ++
       [Event.cmdRun ("git checkout " ++ commit) (some (Path.repoDir fs.nextTemp))]) := by
  simp only [checkout_repo] at h
  split at h
  · exact absurd h (by simp)
  · rename_i c2 fs2 heq
    obtain ⟨h1, h2⟩ := Prod.mk.injEq _ _ _ _ ▸ h
    obtain ⟨hpc, hcc⟩ : p = Path.repoDir fs.nextTemp ∧ c2 = commit := by
      have := Except.ok.inj h1
      exact ⟨(Prod.mk.injEq _ _ _ _ ▸ this).1.symm, (Prod.mk.injEq _ _ _ _ ▸ this).2⟩
    subst hpc
    subst hcc
    obtain ⟨hres, hrec⟩ := checkoutSteps_ok heq
    subst h2
    refine ⟨rfl, ?_, ?_, ?_, hres, ?_⟩ <;> simp [hrec]

lemma run_benchmark_snd (env : Env) (repoDir : Path) (time : String) (users : Int)
    (state : String) (shards nodes rumpUp : Int) (user : String) (fs : FS) :
    (run_benchmark env repoDir time users state shards nodes rumpUp user fs).2 =
      { fs with events := fs.events ++
          [Event.cmdRun (benchmarkLine time users state shards nodes rumpUp user)
            (some repoDir)] } := by
  unfold run_benchmark
  rw [runCommand_eq]
  cases env.exec (benchmarkLine time users state shards nodes rumpUp user)
    (some repoDir) <;> rfl

lemma finallyCleanup_none {fs : FS} {u : String} (hl : fs.lock = some u) :
    finallyCleanup none fs =
      { fs with lock := none, events := fs.events ++ [Event.lockRemoved] } := by
  unfold finallyCleanup
  rw [remove_lock_file_some hl]

lemma finallyCleanup_some {fs : FS} {u : String} {p : Path} (hl : fs.lock = some u)
    (hmem : p.tempId ∈ fs.temps) :
    finallyCleanup (some p) fs =
      { fs with
          lock := none
          temps := fs.temps.erase p.tempId
          events := (fs.events ++ [Event.lockRemoved]) ++
            [Event.tempRemoved p.tempId] } := by
  unfold finallyCleanup
  rw [remove_lock_file_some hl]
  dsimp only
  rw [if_pos (by simp [FS.pathExists, hmem])]

/-- **C2 counterexample**: with a marker whose content is `" alice"` (as
written by a run invoked with `--user " alice"`), acquisition fails, but the
reported holder is the *stripped* content `"alice"` (the script does
`f.read().strip()`), not the marker content itself as the claim states. -/
theorem create_lock_file_strips_holder_cex :
    (create_lock_file "bob" ⟨some " alice", [], 0, []⟩).1 =
      Except.error (Err.alreadyRunning "alice") ∧ (" alice" : String) ≠ "alice" :=
  ⟨rfl, by decide⟩

/-- **C2** (amended): acquiring with no marker present succeeds and writes a
marker containing exactly the caller's identifier; acquiring while a marker
with content `h` exists fails with `AlreadyRunning` reporting `h` stripped
of leading/trailing whitespace (`h` itself whenever `h` has none), and
leaves the state — in particular the existing marker — unchanged. -/
theorem create_lock_file_spec (u : String) (fs : FS) :
    (fs.lock = none →
      create_lock_file u fs =
        (Except.ok (),
         { fs with lock := some u, events := fs.events ++ [Event.lockCreated u] })) ∧
    (∀ h, fs.lock = some h →
      create_lock_file u fs = (Except.error (Err.alreadyRunning (pyStrip h)), fs)) :=
  ⟨fun h => create_lock_file_none h, fun _ hl => create_lock_file_some hl⟩

/-- Witness for `create_lock_file_spec`: both branches at concrete states. -/
theorem create_lock_file_spec_witness :
    create_lock_file "alice" fs0 =
      (Except.ok (),
       { fs0 with lock := some "alice", events := [Event.lockCreated "alice"] }) ∧
    create_lock_file "bob" ⟨some "alice", [], 0, []⟩ =
      (Except.error (Err.alreadyRunning "alice"), ⟨some "alice", [], 0, []⟩) := by
  constructor
  · exact (create_lock_file_spec "alice" fs0).1 rfl
  · exact ((create_lock_file_spec "bob" ⟨some "alice", [], 0, []⟩).2 "alice" rfl).trans
      rfl

/-- **C7**: lock release never fails: it removes an existing marker, is a
no-op when no marker exists, and is idempotent — releasing twice yields the
same no-marker state as releasing once, and after any release no marker
remains. -/
theorem remove_lock_file_spec (fs : FS) :
    (remove_lock_file fs).lock = none ∧
    (fs.lock = none → remove_lock_file fs = fs) ∧
    (∀ h, fs.lock = some h →
      remove_lock_file fs =
        { fs with lock := none, events := fs.events ++ [Event.lockRemoved] }) ∧
    remove_lock_file (remove_lock_file fs) = remove_lock_file fs := by
  have hlock : (remove_lock_file fs).lock = none := by
    cases hl : fs.lock with
    | none => rw [remove_lock_file_none hl]; exact hl
    | some h => rw [remove_lock_file_some hl]
  exact ⟨hlock, fun h => remove_lock_file_none h,
    fun _ hl => remove_lock_file_some hl, remove_lock_file_none hlock⟩

/-- Witness for `remove_lock_file_spec`: both branches at concrete states. -/
theorem remove_lock_file_spec_witness :
    remove_lock_file fs0 = fs0 ∧
    remove_lock_file ⟨some "alice", [], 0, []⟩ =
      ⟨none, [], 0, [Event.lockRemoved]⟩ := by
  constructor
  · exact (remove_lock_file_spec fs0).2.1 rfl
  · exact ((remove_lock_file_spec ⟨some "alice", [], 0, []⟩).2.2.1 "alice" rfl).trans
      (by decide)

/-- **C8**: a malformed `--time` or `--state` argument makes the run
terminate during argument parsing, before any side effect: the final state
is the initial state, so no lock marker was created, no temp directory was
created, and no external command was executed. -/
theorem parse_failure_no_side_effects (env : Env) (a : Args) (fs : FS)
    (h : (∃ e, parse_time a.time = Except.error e) ∨
         (∃ e, parse_state a.state = Except.error e)) :
    (∃ e, (mainRun env a fs).1 = Outcome.parseError e) ∧ (mainRun env a fs).2 = fs := by
  cases ht : parse_time a.time with
  | error e => exact ⟨⟨e, by simp [mainRun, ht]⟩, by simp [mainRun, ht]⟩
  | ok t =>
      rcases h with ⟨e, he⟩ | ⟨e, he⟩
      · rw [ht] at he
        exact absurd he (by simp)
      · exact ⟨⟨e, by simp [mainRun, ht, he]⟩, by simp [mainRun, ht, he]⟩

/-- Witness for `parse_failure_no_side_effects`: a run with `--time 2d`. -/
theorem parse_failure_no_side_effects_witness :
    (∃ e, (mainRun env0 ⟨"2d", 100, "1G", 1, 1, 5, "u", none⟩ fs0).1 =
      Outcome.parseError e) ∧
    (mainRun env0 ⟨"2d", 100, "1G", 1, 1, 5, "u", none⟩ fs0).2 = fs0 :=
  parse_failure_no_side_effects env0 ⟨"2d", 100, "1G", 1, 1, 5, "u", none⟩ fs0
    (Or.inl ⟨ArgError.invalidTime "2d", rfl⟩)

/-- **C10**: when acquisition fails with `AlreadyRunning` because a marker
written by another holder is present, the `finally` block still runs
`remove_lock_file`, which deletes that other holder's marker: after the
failed run no marker remains (the only side effect is the lock removal, no
workspace is created and no command runs), and a subsequent acquisition
succeeds even though the first benchmark may still be running. -/
theorem alreadyRunning_removes_foreign_marker (env : Env) (a : Args) (fs : FS)
    (h : String) (hl : fs.lock = some h)
    (ht : ∃ r, parse_time a.time = Except.ok r)
    (hs : ∃ r, parse_state a.state = Except.ok r) :
    (mainRun env a fs).1 = Outcome.failed (Err.alreadyRunning (pyStrip h)) ∧
    (mainRun env a fs).2.lock = none ∧
    (mainRun env a fs).2.temps = fs.temps ∧
    (mainRun env a fs).2.events = fs.events ++ [Event.lockRemoved] ∧
    (∀ u, (create_lock_file u (mainRun env a fs).2).1 = Except.ok ()) := by
  obtain ⟨t, ht⟩ := ht
  obtain ⟨st, hs⟩ := hs
  have hmain : mainRun env a fs =
      (Outcome.failed (Err.alreadyRunning (pyStrip h)),
       { fs with lock := none, events := fs.events ++ [Event.lockRemoved] }) := by
    simp [mainRun, finallyCleanup, ht, hs, create_lock_file_some hl,
      remove_lock_file_some hl]
  rw [hmain]
  refine ⟨rfl, rfl, rfl, rfl, fun u => ?_⟩
  rw [create_lock_file_none rfl]

/-- Witness for `alreadyRunning_removes_foreign_marker`: a locked state with
holder `bob` and the example configuration. -/
theorem alreadyRunning_removes_foreign_marker_witness :
    (mainRun env0 exampleArgs ⟨some "bob", [], 0, []⟩).1 =
      Outcome.failed (Err.alreadyRunning "bob") ∧
    (mainRun env0 exampleArgs ⟨some "bob", [], 0, []⟩).2.lock = none ∧
    (create_lock_file "carol" (mainRun env0 exampleArgs ⟨some "bob", [], 0, []⟩).2).1 =
      Except.ok () := by
  have h := alreadyRunning_removes_foreign_marker env0 exampleArgs
    ⟨some "bob", [], 0, []⟩ "bob" rfl ⟨"2h", rfl⟩ ⟨"2G", rfl⟩
  exact ⟨h.1.trans (by decide), h.2.1, h.2.2.2.2 "carol"⟩

/-- **C3**: workspace preparation creates a fresh temporary directory and
clones the repository into its `nearcore` subdirectory, fetches refs, and —
when no commit was specified (Python-falsy `--commit`) — resolves the latest
commit of `origin/master` to the concrete identifier that is then checked
out.  If any step of the try-body fails, the entire temporary directory is
removed again before the failure is surfaced (the temp set is restored and
the removal event precedes the return); on success it returns the repository
path and the resolved commit, with the workspace still present. -/
theorem checkout_repo_spec (env : Env) (copt : Option String) (fs : FS) :
    (∀ e fs', checkout_repo env copt fs = (Except.error e, fs') →
       fs'.lock = fs.lock ∧ fs'.temps = fs.temps ∧
       ∃ mid, fs'.events = fs.events ++ [Event.tempCreated fs.nextTemp] ++ mid ++
         [Event.tempRemoved fs.nextTemp]) ∧
    (∀ p commit fs', checkout_repo env copt fs = (Except.ok (p, commit), fs') →
       p = Path.repoDir fs.nextTemp ∧ fs'.lock = fs.lock ∧
       fs'.temps = fs.nextTemp :: fs.temps ∧
       ((isFalsy copt = false ∧ copt = some commit) ∨
        (isFalsy copt = true ∧ ∃ raw,
          env.exec "git rev-parse origin/master" (some p) = Except.ok raw ∧
          commit = pyStrip raw)) ∧
       fs'.events = fs.events ++
         ([Event.tempCreated fs.nextTemp,
           Event.cmdRun gitConfigLine none,
           Event.cmdRun (gitCloneLine p) none,
           Event.cmdRun "git fetch" (some p)] ++
          (if isFalsy copt then
             [Event.cmdRun "git rev-parse origin/master" (some p)] else []) ++
          [Event.cmdRun ("git checkout " ++ commit) (some p)])) := by
  constructor
  · intro e fs' h
    obtain ⟨h1, h2, _, mid, h4⟩ := checkout_repo_err_inv h
    exact ⟨h1, h2, mid, h4⟩
  · intro p commit fs' h
    obtain ⟨hp, h1, h2, _, hres, hev⟩ := checkout_repo_ok_inv h
    subst hp
    exact ⟨rfl, h1, h2, hres, hev⟩

/-- Witness for `checkout_repo_spec`: the success branch in the
all-commands-succeed environment resolving `origin/master` to `deadbeef`,
and the failure branch in the all-commands-fail environment, both from the
empty state. -/
theorem checkout_repo_spec_witness :
    (checkout_repo env0 none fs0).2.temps = [0] ∧
    ((checkout_repo env0 none fs0).1 = Except.ok (Path.repoDir 0, "deadbeef")) ∧
    (checkout_repo envFail none fs0).2.temps = [] ∧
    (∃ mid, (checkout_repo envFail none fs0).2.events =
      fs0.events ++ [Event.tempCreated 0] ++ mid ++ [Event.tempRemoved 0]) := by
  have hok := (checkout_repo_spec env0 none fs0).2 (Path.repoDir 0) "deadbeef"
    (checkout_repo env0 none fs0).2 rfl
  have herr := (checkout_repo_spec envFail none fs0).1
    (Err.commandFailed gitConfigLine "boom") (checkout_repo envFail none fs0).2 rfl
  exact ⟨hok.2.2.1, rfl, herr.2.1, herr.2.2⟩

/-- **C1 counterexample**: in a fully successful run the `finally` block
removes the lock file *before* removing the workspace: the event log ends
`[..., lockRemoved, tempRemoved 0]`, so workspace teardown does not precede
lock release as the claim states (lines 95-97 of the script run
`remove_lock_file()` first, `shutil.rmtree(...)` second). -/
theorem cleanup_order_cex :
    (mainRun env0 exampleArgs fs0).2.events =
      [Event.lockCreated "alice", Event.tempCreated 0,
       Event.cmdRun gitConfigLine none,
       Event.cmdRun (gitCloneLine (Path.repoDir 0)) none,
       Event.cmdRun "git fetch" (some (Path.repoDir 0)),
       Event.cmdRun "git checkout abc123" (some (Path.repoDir 0)),
       Event.cmdRun (benchmarkLine "2h" 50 "2G" 4 2 10 "alice")
         (some (Path.repoDir 0)),
       Event.lockRemoved, Event.tempRemoved 0] ∧
    (mainRun env0 exampleArgs fs0).2.events.indexOf Event.lockRemoved <
      (mainRun env0 exampleArgs fs0).2.events.indexOf (Event.tempRemoved 0) := by
  have h : (mainRun env0 exampleArgs fs0).2.events =
      [Event.lockCreated "alice", Event.tempCreated 0,
       Event.cmdRun gitConfigLine none,
       Event.cmdRun (gitCloneLine (Path.repoDir 0)) none,
       Event.cmdRun "git fetch" (some (Path.repoDir 0)),
       Event.cmdRun "git checkout abc123" (some (Path.repoDir 0)),
       Event.cmdRun (benchmarkLine "2h" 50 "2G" 4 2 10 "alice")
         (some (Path.repoDir 0)),
       Event.lockRemoved, Event.tempRemoved 0] := rfl
  refine ⟨h, ?_⟩
  rw [h]
  decide

/-- **C1** (amended): for every run that reaches the lock-acquired state
(validation succeeded, no marker was present), the exit cleanup releases the
lock and then — when a workspace still exists at cleanup time — tears it
down *after* the lock release (the event log ends with `lockRemoved`, or
with `lockRemoved` followed by `tempRemoved`); both cleanups run on every
exit path (normal completion, checkout failure, benchmark failure), and
afterwards no lock marker remains and the temp-directory set equals the
initial one, so no workspace of the run survives. -/
theorem cleanup_amended_spec (env : Env) (a : Args) (fs : FS)
    (hlock : fs.lock = none)
    (ht : ∃ r, parse_time a.time = Except.ok r)
    (hs : ∃ r, parse_state a.state = Except.ok r) :
    (mainRun env a fs).2.lock = none ∧
    (mainRun env a fs).2.temps = fs.temps ∧
    ((∃ evs, (mainRun env a fs).2.events = evs ++ [Event.lockRemoved]) ∨
     (∃ evs, (mainRun env a fs).2.events =
        evs ++ [Event.lockRemoved, Event.tempRemoved fs.nextTemp])) := by
  obtain ⟨t, ht⟩ := ht
  obtain ⟨st, hs⟩ := hs
  have hcl := create_lock_file_none (u := a.user) hlock
  rcases hco : checkout_repo env a.commit
      { fs with lock := some a.user, events := fs.events ++ [Event.lockCreated a.user] }
    with ⟨rco, fsB⟩
  cases rco with
  | error e =>
      obtain ⟨hBlock, hBtemps, _, mid, _⟩ := checkout_repo_err_inv hco
      have hBlock2 : fsB.lock = some a.user := by simpa using hBlock
      have hBtemps2 : fsB.temps = fs.temps := by simpa using hBtemps
      have hmain : (mainRun env a fs).2 =
          { fsB with lock := none, events := fsB.events ++ [Event.lockRemoved] } := by
        simp only [mainRun, ht, hs, hcl, hco, finallyCleanup_none hBlock2]
      rw [hmain]
      exact ⟨rfl, by simpa using hBtemps2, Or.inl ⟨fsB.events, rfl⟩⟩
  | ok pc =>
      obtain ⟨p, c⟩ := pc
      obtain ⟨hp, hBlock, hBtemps, _, _, _⟩ := checkout_repo_ok_inv hco
      have hp2 : p = Path.repoDir fs.nextTemp := by simpa using hp
      subst hp2
      have hBlock2 : fsB.lock = some a.user := by simpa using hBlock
      have hBtemps2 : fsB.temps = fs.nextTemp :: fs.temps := by simpa using hBtemps
      rcases hrb : run_benchmark env (Path.repoDir fs.nextTemp) t a.users st a.shards
          a.nodes a.rumpUp a.user fsB with ⟨rb, fsC⟩
      have hC : fsC = { fsB with events := fsB.events ++
          [Event.cmdRun (benchmarkLine t a.users st a.shards a.nodes a.rumpUp a.user)
            (some (Path.repoDir fs.nextTemp))] } := by
        have h2 := run_benchmark_snd env (Path.repoDir fs.nextTemp) t a.users st
          a.shards a.nodes a.rumpUp a.user fsB
        rw [hrb] at h2
        exact h2
      have hClock : fsC.lock = some a.user := by rw [hC]; simpa using hBlock2
      have hCtemps : fsC.temps = fs.nextTemp :: fs.temps := by
        rw [hC]; simpa using hBtemps2
      have hmem : Path.tempId (Path.repoDir fs.nextTemp) ∈ fsC.temps := by
        rw [hCtemps]; simp [Path.tempId]
      have hfin := finallyCleanup_some (p := Path.repoDir fs.nextTemp) hClock hmem
      have hmain : (mainRun env a fs).2 =
          finallyCleanup (some (Path.repoDir fs.nextTemp)) fsC := by
        cases rb with
        | error e => simp only [mainRun, ht, hs, hcl, hco, hrb]
        | ok r => simp only [mainRun, ht, hs, hcl, hco, hrb]
      rw [hmain, hfin]
      refine ⟨rfl, ?_, Or.inr ⟨fsC.events, ?_⟩⟩
      · simp [hCtemps, Path.tempId]
      · simp [Path.tempId]

/-- Witness for `cleanup_amended_spec`: the example configuration, an
all-commands-succeed environment and the empty initial state. -/
theorem cleanup_amended_spec_witness :
    (mainRun env0 exampleArgs fs0).2.lock = none ∧
    (mainRun env0 exampleArgs fs0).2.temps = [] ∧
    ((∃ evs, (mainRun env0 exampleArgs fs0).2.events = evs ++ [Event.lockRemoved]) ∨
     (∃ evs, (mainRun env0 exampleArgs fs0).2.events =
        evs ++ [Event.lockRemoved, Event.tempRemoved 0])) := by
  have h := cleanup_amended_spec env0 exampleArgs fs0 rfl ⟨"2h", rfl⟩ ⟨"2G", rfl⟩
  exact ⟨h.1, h.2.1, h.2.2⟩

lemma wordsAux_push (w : List Char) (hw : ∀ c ∈ w, c ≠ ' ') :
    ∀ (cur rest : List Char),
      wordsAux cur (w ++ rest) = wordsAux (w.reverse ++ cur) rest := by
  induction w with
  | nil => intro cur rest; simp
  | cons c w ih =>
      intro cur rest
      have hc : c ≠ ' ' := hw c (List.mem_cons_self c w)
      have ihw : ∀ e ∈ w, e ≠ ' ' := fun e he => hw e (List.mem_cons_of_mem c he)
      simp only [List.cons_append, wordsAux, if_neg hc, List.append_eq]
      rw [ih ihw (c :: cur) rest]
      simp

lemma wordsAux_space (cur : List Char) (rest : List Char) (hcur : cur ≠ []) :
    wordsAux cur (' ' :: rest) = cur.reverse :: wordsAux [] rest := by
  simp [wordsAux, hcur]

lemma wordsAux_nil_word (cur : List Char) (hcur : cur ≠ []) :
    wordsAux cur [] = [cur.reverse] := by
  simp [wordsAux, hcur]

lemma shellWords_word (w : List Char) (rest : List Char) (hw : w ≠ [])
    (hsp : ∀ c ∈ w, c ≠ ' ') :
    wordsAux [] (w ++ ' ' :: rest) = w :: wordsAux [] rest := by
  rw [wordsAux_push w hsp [] (' ' :: rest), List.append_nil,
    wordsAux_space _ _ (by simp [hw])]
  simp

lemma shellWords_last (w : List Char) (hw : w ≠ []) (hsp : ∀ c ∈ w, c ≠ ' ') :
    wordsAux [] w = [w] := by
  have h := wordsAux_push w hsp [] []
  rw [List.append_nil, List.append_nil] at h
  rw [h, wordsAux_nil_word _ (by simp [hw])]
  simp

/-- **C4**: the benchmark invocation is a single external command run with
the checked-out repository directory as its working directory, and the words
of its command line after the driver script path are exactly the seven
configuration fields in the fixed order duration, users, state, shards,
nodes, ramp-up, user — stated for fields that are nonempty and contain no
space (validated durations/state sizes and rendered integers always are). -/
theorem run_benchmark_command_spec (env : Env) (repo : Path) (time : String)
    (users : Int) (state : String) (shards nodes rumpUp : Int) (user : String)
    (fs : FS)
    (hf : ∀ w ∈ [time, toString users, state, toString shards, toString nodes,
      toString rumpUp, user], w.data ≠ [] ∧ ∀ c ∈ w.data, c ≠ ' ') :
    (run_benchmark env repo time users state shards nodes rumpUp user fs).2.events =
      fs.events ++
        [Event.cmdRun (benchmarkLine time users state shards nodes rumpUp user)
          (some repo)] ∧
    shellWords (benchmarkLine time users state shards nodes rumpUp user) =
      ["./scripts/start_benchmark.sh", time, toString users, state,
       toString shards, toString nodes, toString rumpUp, user] := by
  constructor
  · rw [run_benchmark_snd]
  · have hA : ("./scripts/start_benchmark.sh " : String).data =
        ("./scripts/start_benchmark.sh" : String).data ++ [' '] := rfl
    have hB : (" " : String).data = [' '] := rfl
    have hdata : (benchmarkLine time users state shards nodes rumpUp user).data =
        ("./scripts/start_benchmark.sh" : String).data ++ ' ' ::
          (time.data ++ ' ' :: ((toString users).data ++ ' ' :: (state.data ++ ' ' ::
            ((toString shards).data ++ ' ' :: ((toString nodes).data ++ ' ' ::
              ((toString rumpUp).data ++ ' ' :: user.data)))))) := by
      simp [benchmarkLine, String.data_append, hA, hB]
    have hT := hf time (by simp)
    have hU := hf (toString users) (by simp)
    have hS := hf state (by simp)
    have hSh := hf (toString shards) (by simp)
    have hN := hf (toString nodes) (by simp)
    have hR := hf (toString rumpUp) (by simp)
    have hUs := hf user (by simp)
    unfold shellWords
    rw [hdata]
    rw [shellWords_word _ _ (by decide) (by decide)]
    rw [shellWords_word _ _ hT.1 hT.2]
    rw [shellWords_word _ _ hU.1 hU.2]
    rw [shellWords_word _ _ hS.1 hS.2]
    rw [shellWords_word _ _ hSh.1 hSh.2]
    rw [shellWords_word _ _ hN.1 hN.2]
    rw [shellWords_word _ _ hR.1 hR.2]
    rw [shellWords_last _ hUs.1 hUs.2]
    simp [string_mk_data]

/-- Witness for `run_benchmark_command_spec` at the spec's worked example:
`--time 2h --users 50 --state 2G --shards 4 --nodes 2 --rump-up 10
--user alice`. -/
theorem run_benchmark_command_spec_witness :
    (run_benchmark env0 (Path.repoDir 0) "2h" 50 "2G" 4 2 10 "alice" fs0).2.events =
      [Event.cmdRun (benchmarkLine "2h" 50 "2G" 4 2 10 "alice")
        (some (Path.repoDir 0))] ∧
    shellWords (benchmarkLine "2h" 50 "2G" 4 2 10 "alice") =
      ["./scripts/start_benchmark.sh", "2h", "50", "2G", "4", "2", "10", "alice"] := by
  have h := run_benchmark_command_spec env0 (Path.repoDir 0) "2h" 50 "2G" 4 2 10
    "alice" fs0 (by decide)
  exact ⟨h.1, h.2.trans rfl⟩

end FtBenchmark
